import Mathlib

/-!
Shallow embedding of the `form2json` Caddy middleware (src/handler.go).

The Go program is a single HTTP middleware.  We embed:

* the `part` record (src/handler.go:152-158) together with its
  `encoding/json` serialization, including the `omitempty` option on every
  field;
* the `Handler` configuration struct and its `Provision` method
  (src/handler.go:38-59);
* `encodeFileIntoMemory` (src/handler.go:128-150), with the standard-library
  base64 encoder modelled concretely (`base64Encode`), and a matching
  decoder used to state the round-trip law;
* `ServeHTTP` (src/handler.go:61-126).

External collaborators are modelled as follows.  The multipart wire decoder
(`multipart.Reader.ReadForm`, reached through `net/http`'s
`Request.ParseMultipartForm`) is an oracle carried by the request:
`formParse : Int → Except String MultipartForm` gives the decoded form (or
the decoder's error) as a function of the `maxMemory` argument.
`Request.ParseMultipartForm` itself is embedded (`parseMultipartForm`): it
consults the oracle only when the request's media type is exactly
`multipart/form-data`, and otherwise returns `ErrNotMultipart`, exactly as
`net/http` does.  Possible failures of `FileHeader.Open`/`io.Copy` and of
`MultipartForm.RemoveAll` are oracles (`readErr`, `removeAllErr`).
`caddyhttp.Error(status, err)` is modelled as an `Outcome.error status err`
result; invoking the next handler is `Outcome.next` carrying the (possibly
mutated) request.

Machine integers (`int64`) are modelled as `Int`; the program only compares
and stores them, so no overflow arithmetic arises.  Bytes are `Nat` values
below 256.
-/

set_option maxRecDepth 8000

/-- Character-list version of Go `strings.HasPrefix`: `listIsPre p s` is
true when `p` is a prefix of `s`. -/
def listIsPre (p s : List Char) : Bool :=
  match p, s with
  | [], _ => true
  | _, [] => false
  | c :: cp, d :: ds => c == d && listIsPre cp ds

/-- Go `strings.HasPrefix s p` (src/handler.go:67-68 uses it on the
Content-Type header). -/
def strHasPre (s p : String) : Bool := listIsPre p.data s.data

/-- Characters of a content-type value up to (excluding) the first `;`. -/
def takeUntilSemi : List Char → List Char
  | [] => []
  | c :: cs => if c = ';' then [] else c :: takeUntilSemi cs

/-- Strip leading and trailing spaces. -/
def trimSpaces (l : List Char) : List Char :=
  ((l.dropWhile (fun c => c = ' ')).reverse.dropWhile (fun c => c = ' ')).reverse

/-- The media type of a `Content-Type` header value, as computed by Go's
`mime.ParseMediaType`: the part before the first `;`, trimmed and
lower-cased.  (`ParseMediaType` also validates token characters; a value
failing validation is never equal to `multipart/form-data` after this
normalisation, which is all `parseMultipartForm` needs.) -/
def mediaTypeOf (ct : String) : String :=
  String.mk ((trimSpaces (takeUntilSemi ct.data)).map Char.toLower)

/-- Go `http.Header.Get`: first value for the key, `""` when absent.
Header keys appear here already in canonical form. -/
def headerGet (hs : List (String × String)) (k : String) : String :=
  match hs.find? (fun p => p.1 == k) with
  | some p => p.2
  | none => ""

/-- Go `http.Header.Set`: replace all values stored under the key. -/
def headerSet (hs : List (String × String)) (k v : String) : List (String × String) :=
  (k, v) :: hs.filter (fun p => !(p.1 == k))

/-- Lower-case hexadecimal digits, as used by `encoding/json` escapes. -/
def hexDigit (n : Nat) : Char :=
  ("0123456789abcdef").data.getD n '0'

/-- One character of Go `encoding/json` string escaping (HTML escaping on,
as it is for `json.NewEncoder`). -/
def jsonEscapeChar (c : Char) : List Char :=
  if c = '"' then ['\\', '"']
  else if c = '\\' then ['\\', '\\']
  else if c = '\n' then ['\\', 'n']
  else if c = '\r' then ['\\', 'r']
  else if c = '\t' then ['\\', 't']
  else if c.toNat < 32 then ['\\', 'u', '0', '0', hexDigit (c.toNat / 16), hexDigit (c.toNat % 16)]
  else if c = '<' then ['\\', 'u', '0', '0', '3', 'c']
  else if c = '>' then ['\\', 'u', '0', '0', '3', 'e']
  else if c = '&' then ['\\', 'u', '0', '0', '2', '6']
  else if c.toNat = 8232 then ['\\', 'u', '2', '0', '2', '8']
  else if c.toNat = 8233 then ['\\', 'u', '2', '0', '2', '9']
  else [c]

/-- Go `encoding/json` serialization of a string value. -/
def jsonString (s : String) : String :=
  "\"" ++ String.mk ((s.data.map jsonEscapeChar).flatten) ++ "\""

/-- The standard base64 alphabet (`base64.StdEncoding`). -/
def b64Chars : List Char :=
  ("ABCDEFGHIJKLMNOPQRSTUVWXYZabcdefghijklmnopqrstuvwxyz0123456789+/").data

/-- Alphabet character for a 6-bit group. -/
def b64Char (n : Nat) : Char := b64Chars.getD n 'A'

/-- Go `base64.NewEncoder(base64.StdEncoding, buf)` fed the byte list and
then closed: standard base64 with `=` padding and no line breaks. -/
def base64Encode : List Nat → List Char
  | b1 :: b2 :: b3 :: rest =>
    b64Char (b1 / 4) :: b64Char (b1 % 4 * 16 + b2 / 16) ::
      b64Char (b2 % 16 * 4 + b3 / 64) :: b64Char (b3 % 64) :: base64Encode rest
  | [b1, b2] => [b64Char (b1 / 4), b64Char (b1 % 4 * 16 + b2 / 16), b64Char (b2 % 16 * 4), '=']
  | [b1] => [b64Char (b1 / 4), b64Char (b1 % 4 * 16), '=', '=']
  | [] => []

/-- Index of a character in the standard base64 alphabet (64 for a
character outside it). -/
def b64Val (c : Char) : Nat := b64Chars.indexOf c

/-- Standard base64 decoding of well-formed input, used to state the
round-trip law for `base64Encode`. -/
def base64Decode : List Char → List Nat
  | c1 :: c2 :: c3 :: c4 :: rest =>
    if c3 = '=' then [b64Val c1 * 4 + b64Val c2 / 16]
    else if c4 = '=' then
      [b64Val c1 * 4 + b64Val c2 / 16, b64Val c2 % 16 * 16 + b64Val c3 / 4]
    else
      (b64Val c1 * 4 + b64Val c2 / 16) :: (b64Val c2 % 16 * 16 + b64Val c3 / 4) ::
        (b64Val c3 % 4 * 64 + b64Val c4) :: base64Decode rest
  | _ => []

/-- The `part` struct (src/handler.go:152-158).  Field names are the JSON
tags; every tag carries `omitempty`. -/
structure part where
  name : String
  type : String
  value : String
  content_type : String
  file_name : String
deriving DecidableEq

/-- One `*multipart.FileHeader` as the handler consumes it: client file
name, the `Content-Type` stored in its MIME header, the content bytes the
opened file yields, and an oracle for a failure of `Open`/`io.Copy`. -/
structure FileHeader where
  filename : String
  contentType : String
  content : List Nat
  readErr : Option String
deriving DecidableEq

/-- `*multipart.Form`: the name→values and name→files mappings (as the
association lists some map iteration order yields) plus an oracle for a
failure of `RemoveAll`. -/
structure MultipartForm where
  value : List (String × List String)
  file : List (String × List FileHeader)
  removeAllErr : Option String
deriving DecidableEq

/-- The `Handler` configuration struct (src/handler.go:38-43). -/
structure Handler where
  MemoryLimit : Int
deriving DecidableEq

/-- An incoming `*http.Request`, restricted to what the handler touches.
`formParse` is the multipart wire-decoder oracle: the form (or decode
error) the standard library's `ReadForm` would produce from this body,
as a function of the `maxMemory` argument it is given. -/
structure Request where
  method : String
  header : List (String × String)
  contentLength : Int
  body : String
  formParse : Int → Except String MultipartForm

/-- Result of `ServeHTTP`: either the next handler is invoked with the
(possibly mutated) request, or a `caddyhttp.Error(status, cause)` is
returned and the next handler is never invoked. -/
inductive Outcome where
  | next (r : Request)
  | error (status : Nat) (cause : String)

/-- `defaultMemLimit` (src/handler.go:166). -/
def defaultMemLimit : Int := 1024 * 1024 * 2

/-- The body of `Provision` (src/handler.go:54-59) acting on its receiver:
the state of the local variable `h` at return.  In Go the receiver is
declared by value (`func (h Handler) Provision`), so this is the state of
a copy. -/
def Handler.provisionReceiverFinal (h : Handler) : Handler :=
  if h.MemoryLimit ≤ 0 then { h with MemoryLimit := defaultMemLimit } else h

/-- Caller-visible effect of invoking `Provision` on a stored `Handler`:
because the receiver is a value (a copy), the stored handler is unchanged;
the assignment in the body lands on the copy, and `Provision` returns nil.
This is the handler Caddy keeps and later serves requests with. -/
def Handler.afterProvision (h : Handler) : Handler := h

/-- The error text of `net/http`'s `ErrNotMultipart`. -/
def errNotMultipart : String := "request Content-Type isn't multipart/form-data"

/-- `net/http` `(*Request).ParseMultipartForm(maxMemory)`: it reaches the
multipart decoder only when the request's media type is exactly
`multipart/form-data`; for any other content type (including
`application/x-www-form-urlencoded`) `multipartReader` fails first and
`ErrNotMultipart` is returned. -/
def parseMultipartForm (ct : String) (decodeForm : Int → Except String MultipartForm)
    (maxMemory : Int) : Except String MultipartForm :=
  if mediaTypeOf ct = "multipart/form-data" then decodeForm maxMemory
  else Except.error errNotMultipart

/-- The `part` built for one uploaded file on the success path of
`encodeFileIntoMemory` (src/handler.go:143-149). -/
def mkFilePart (name : String) (f : FileHeader) : part :=
  { name := name, type := "file/base64", value := String.mk (base64Encode f.content),
    content_type := f.contentType, file_name := f.filename }

/-- `encodeFileIntoMemory` (src/handler.go:128-150): open the file, copy
it through a base64 encoder into a fresh buffer, close the encoder; any
open/read failure is returned and the partial buffer discarded. -/
def encodeFileIntoMemory (name : String) (file : FileHeader) : Except String part :=
  match file.readErr with
  | some e => Except.error e
  | none => Except.ok (mkFilePart name file)

/-- The inner loop over `files` (src/handler.go:91-97): encode each file
in order, stopping at the first failure. -/
def encodeFiles (name : String) : List FileHeader → Except String (List part)
  | [] => Except.ok []
  | f :: fs =>
    match encodeFileIntoMemory name f with
    | Except.error e => Except.error e
    | Except.ok p =>
      match encodeFiles name fs with
      | Except.error e => Except.error e
      | Except.ok ps => Except.ok (p :: ps)

/-- The outer loop over `r.MultipartForm.File` (src/handler.go:90-98). -/
def encodeFileMap : List (String × List FileHeader) → Except String (List part)
  | [] => Except.ok []
  | nf :: rest =>
    match encodeFiles nf.1 nf.2 with
    | Except.error e => Except.error e
    | Except.ok ps =>
      match encodeFileMap rest with
      | Except.error e => Except.error e
      | Except.ok rest' => Except.ok (ps ++ rest')

/-- The `part` built for one text field value (src/handler.go:83-87). -/
def mkTextPart (name v : String) : part :=
  { name := name, type := "field/text", value := v, content_type := "", file_name := "" }

/-- The loop over `r.MultipartForm.Value` (src/handler.go:81-89): one text
part per value, values of one name in order. -/
def textParts (value : List (String × List String)) : List part :=
  (value.map (fun nv => nv.2.map (mkTextPart nv.1))).flatten

/-- Lines 80-98 of src/handler.go: the full `converted` list — all text
parts (from the value map) followed by all file parts (from the file map);
a file failure aborts with that error. -/
def convert (form : MultipartForm) : Except String (List part) :=
  match encodeFileMap form.file with
  | Except.error e => Except.error e
  | Except.ok fps => Except.ok (textParts form.value ++ fps)

/-- The members `encoding/json` keeps for a `part` value: struct-tag order,
and `omitempty` drops every field whose value is the empty string. -/
def partMembers (p : part) : List (String × String) :=
  ([("name", p.name), ("type", p.type), ("value", p.value),
    ("content_type", p.content_type), ("file_name", p.file_name)]).filter (fun f => !(f.2 == ""))

/-- `encoding/json` serialization of one `part`. -/
def partJSON (p : part) : String :=
  "\x7b" ++ String.intercalate ","
    ((partMembers p).map (fun f => jsonString f.1 ++ ":" ++ jsonString f.2)) ++ "\x7d"

/-- `encoding/json` serialization of the `converted` slice
(src/handler.go:80,111): a nil slice — the empty conversion — marshals to
`null`, a non-empty one to a JSON array. -/
def partsJSON (ps : List part) : String :=
  if ps.isEmpty then "null"
  else "[" ++ String.intercalate "," (ps.map partJSON) ++ "]"

/-- The bytes `json.NewEncoder(buf).Encode(converted)` leaves in the
buffer: the serialization plus a trailing newline. -/
def encodeBody (ps : List part) : String := partsJSON ps ++ "\n"

/-- The eligibility gate of src/handler.go:63-70 as one predicate: POST
and a Content-Type with one of the two form prefixes. -/
def eligible (r : Request) : Bool :=
  r.method == "POST" &&
    (strHasPre (headerGet r.header "Content-Type") "application/x-www-form-urlencoded" ||
      strHasPre (headerGet r.header "Content-Type") "multipart/form-data")

/-- Lines 72-125 of src/handler.go: parse the form (400 on failure), build
the converted parts (500 on file failure), `RemoveAll` the form's
temporary files (500 on failure), serialize, and hand the mutated request
to the next handler.  (Serialization of `[]part` — strings only — cannot
fail, so the error branch of line 112-114 is unreachable and carries no
separate model.) -/
def convertStep (h : Handler) (r : Request) : Outcome :=
  match parseMultipartForm (headerGet r.header "Content-Type") r.formParse h.MemoryLimit with
  | Except.error e => Outcome.error 400 e
  | Except.ok form =>
    match convert form with
    | Except.error e => Outcome.error 500 e
    | Except.ok converted =>
      match form.removeAllErr with
      | some e => Outcome.error 500 e
      | none =>
        Outcome.next { r with
          body := encodeBody converted,
          header := headerSet (headerSet (headerSet r.header
            "Content-Type" "application/json")
            "Content-Type-Class" "caddy_post_json_v1")
            "Content-Length" (toString (encodeBody converted).utf8ByteSize),
          contentLength := Int.ofNat (encodeBody converted).utf8ByteSize }

/-- `ServeHTTP` (src/handler.go:61-126): pass non-POST requests and
non-form content types through unchanged, otherwise run the conversion. -/
def Handler.ServeHTTP (h : Handler) (r : Request) : Outcome :=
  if !(r.method == "POST") then Outcome.next r
  else if !(strHasPre (headerGet r.header "Content-Type") "application/x-www-form-urlencoded") &&
      !(strHasPre (headerGet r.header "Content-Type") "multipart/form-data") then Outcome.next r
  else convertStep h r

/-! ### Helper lemmas -/

theorem serveHTTP_of_not_eligible (h : Handler) (r : Request) (he : eligible r = false) :
    h.ServeHTTP r = Outcome.next r := by
  unfold Handler.ServeHTTP
  by_cases hm : (r.method == "POST") = true
  · have hpre := he
    simp only [eligible, hm, Bool.true_and, Bool.or_eq_false_iff] at hpre
    simp [hm, hpre.1, hpre.2]
  · have hm' : (r.method == "POST") = false := by
      revert hm; cases r.method == "POST" <;> simp
    simp [hm']

theorem serveHTTP_of_eligible (h : Handler) (r : Request) (he : eligible r = true) :
    h.ServeHTTP r = convertStep h r := by
  unfold Handler.ServeHTTP
  simp only [eligible, Bool.and_eq_true, Bool.or_eq_true] at he
  rcases he with ⟨hm, hpre⟩
  rcases hpre with hA | hB
  · simp [hm, hA]
  · simp [hm, hB]

theorem find?_filter_ne (hs : List (String × String)) (k k' : String) (hk : k' ≠ k) :
    (hs.filter (fun p => !(p.1 == k))).find? (fun p => p.1 == k') =
      hs.find? (fun p => p.1 == k') := by
  induction hs with
  | nil => rfl
  | cons a t ih =>
    by_cases ha : a.1 = k
    · have h1 : (a.1 == k) = true := by simp [ha]
      have h2 : (a.1 == k') = false := by simp [ha]; exact fun hh => (hk hh.symm).elim
      simp [List.filter_cons, h1, List.find?_cons, h2, ih]
    · have h1 : (a.1 == k) = false := by simp [ha]
      by_cases ha' : a.1 = k'
      · have h2 : (a.1 == k') = true := by simp [ha']
        simp [List.filter_cons, h1, List.find?_cons, h2]
      · have h2 : (a.1 == k') = false := by simp [ha']
        simp [List.filter_cons, h1, List.find?_cons, h2, ih]

theorem headerGet_set_self (hs : List (String × String)) (k v : String) :
    headerGet (headerSet hs k v) k = v := by
  simp [headerGet, headerSet, List.find?_cons]

theorem headerGet_set_ne (hs : List (String × String)) (k k' v : String) (hk : k' ≠ k) :
    headerGet (headerSet hs k v) k' = headerGet hs k' := by
  have h2 : (k == k') = false := by
    simp only [beq_eq_false_iff_ne, ne_eq]
    exact fun hh => hk hh.symm
  simp [headerGet, headerSet, List.find?_cons, h2, find?_filter_ne hs k k' hk]

theorem b64Val_b64Char : ∀ n, n < 64 → b64Val (b64Char n) = n := by decide

theorem b64Char_ne_pad : ∀ n, n < 64 → b64Char n ≠ '=' := by decide

theorem b64Char_mem (n : Nat) : b64Char n ∈ b64Chars := by
  unfold b64Char
  rcases Nat.lt_or_ge n b64Chars.length with h | h
  · rw [List.getD_eq_getElem _ _ h]
    exact List.getElem_mem _
  · rw [List.getD_eq_default _ _ h]
    decide

theorem mem_b64Chars_not_newline : ∀ c ∈ b64Chars, c ≠ '\n' ∧ c ≠ '\r' := by decide

theorem base64_round_trip (l : List Nat) (hb : ∀ b ∈ l, b < 256) :
    base64Decode (base64Encode l) = l := by
  induction l using base64Encode.induct with
  | case1 b1 b2 b3 rest ih =>
    have h1 : b1 < 256 := hb b1 (by simp)
    have h2 : b2 < 256 := hb b2 (by simp)
    have h3 : b3 < 256 := hb b3 (by simp)
    have e3 : b64Char (b2 % 16 * 4 + b3 / 64) ≠ '=' := b64Char_ne_pad _ (by omega)
    have e4 : b64Char (b3 % 64) ≠ '=' := b64Char_ne_pad _ (by omega)
    simp only [base64Encode, base64Decode, if_neg e3, if_neg e4]
    rw [b64Val_b64Char _ (by omega), b64Val_b64Char _ (by omega),
      b64Val_b64Char _ (by omega), b64Val_b64Char _ (by omega)]
    rw [ih (fun b hm => hb b (by simp [hm]))]
    simp only [List.cons.injEq, and_true]
    omega
  | case2 b1 b2 =>
    have h1 : b1 < 256 := hb b1 (by simp)
    have h2 : b2 < 256 := hb b2 (by simp)
    have e3 : b64Char (b2 % 16 * 4) ≠ '=' := b64Char_ne_pad _ (by omega)
    simp only [base64Encode, base64Decode, if_neg e3, if_true]
    rw [b64Val_b64Char _ (by omega), b64Val_b64Char _ (by omega), b64Val_b64Char _ (by omega)]
    simp only [List.cons.injEq, and_true]
    omega
  | case3 b1 =>
    have h1 : b1 < 256 := hb b1 (by simp)
    simp only [base64Encode, base64Decode, if_true]
    rw [b64Val_b64Char _ (by omega), b64Val_b64Char _ (by omega)]
    simp only [List.cons.injEq, and_true]
    omega
  | case4 => rfl

theorem base64Encode_mem (l : List Nat) :
    ∀ c ∈ base64Encode l, c ∈ b64Chars ∨ c = '=' := by
  induction l using base64Encode.induct with
  | case1 b1 b2 b3 rest ih =>
    intro c hc
    simp only [base64Encode, List.mem_cons] at hc
    rcases hc with rfl | rfl | rfl | rfl | hc
    · exact Or.inl (b64Char_mem _)
    · exact Or.inl (b64Char_mem _)
    · exact Or.inl (b64Char_mem _)
    · exact Or.inl (b64Char_mem _)
    · exact ih c hc
  | case2 b1 b2 =>
    intro c hc
    simp only [base64Encode, List.mem_cons, List.not_mem_nil, or_false] at hc
    rcases hc with rfl | rfl | rfl | rfl
    · exact Or.inl (b64Char_mem _)
    · exact Or.inl (b64Char_mem _)
    · exact Or.inl (b64Char_mem _)
    · exact Or.inr rfl
  | case3 b1 =>
    intro c hc
    simp only [base64Encode, List.mem_cons, List.not_mem_nil, or_false] at hc
    rcases hc with rfl | rfl | rfl | rfl
    · exact Or.inl (b64Char_mem _)
    · exact Or.inl (b64Char_mem _)
    · exact Or.inr rfl
    · exact Or.inr rfl
  | case4 => intro c hc; cases hc

theorem encodeFiles_ok (n : String) :
    ∀ (files : List FileHeader) (ps : List part),
      encodeFiles n files = Except.ok ps → ps = files.map (mkFilePart n) := by
  intro files
  induction files with
  | nil =>
    intro ps h
    simp only [encodeFiles, Except.ok.injEq] at h
    simp [h.symm]
  | cons f fs ih =>
    intro ps h
    cases hf : f.readErr with
    | some e =>
      rw [encodeFiles] at h
      simp [encodeFileIntoMemory, hf] at h
    | none =>
      rw [encodeFiles] at h
      simp only [encodeFileIntoMemory, hf] at h
      cases hr : encodeFiles n fs with
      | error e => rw [hr] at h; simp at h
      | ok ps' =>
        rw [hr] at h
        simp only [Except.ok.injEq] at h
        rw [← h, ih ps' hr, List.map_cons]

theorem encodeFileMap_ok :
    ∀ (l : List (String × List FileHeader)) (fps : List part),
      encodeFileMap l = Except.ok fps →
        fps = (l.map (fun nf => nf.2.map (mkFilePart nf.1))).flatten := by
  intro l
  induction l with
  | nil =>
    intro fps h
    simp only [encodeFileMap, Except.ok.injEq] at h
    simp [h.symm]
  | cons nf rest ih =>
    intro fps h
    rw [encodeFileMap] at h
    cases h1 : encodeFiles nf.1 nf.2 with
    | error e => rw [h1] at h; simp at h
    | ok ps =>
      rw [h1] at h
      cases h2 : encodeFileMap rest with
      | error e => rw [h2] at h; simp at h
      | ok rest' =>
        rw [h2] at h
        simp only [Except.ok.injEq] at h
        rw [← h, encodeFiles_ok nf.1 nf.2 ps h1, ih rest' h2]
        simp

theorem name_mem_of_mem_built {α : Type} (g : String → α → part)
    (hg : ∀ n a, (g n a).name = n) (t : List (String × List α)) (p : part)
    (hp : p ∈ (t.map (fun nf => nf.2.map (g nf.1))).flatten) :
    p.name ∈ t.map Prod.fst := by
  rcases List.mem_flatten.1 hp with ⟨s, hs, hps⟩
  rcases List.mem_map.1 hs with ⟨nf, hnf, rfl⟩
  rcases List.mem_map.1 hps with ⟨x, _, rfl⟩
  rw [hg]
  exact List.mem_map.2 ⟨nf, hnf, rfl⟩

theorem filter_built_of_nodup {α : Type} (g : String → α → part)
    (hg : ∀ n a, (g n a).name = n) :
    ∀ (l : List (String × List α)), (l.map Prod.fst).Nodup →
      ∀ e ∈ l, ((l.map (fun nf => nf.2.map (g nf.1))).flatten.filter
        (fun p => p.name == e.1)) = e.2.map (g e.1) := by
  intro l
  induction l with
  | nil => intro _ e he; cases he
  | cons a t ih =>
    intro hnd e he
    have hnd' := hnd
    rw [List.map_cons, List.nodup_cons] at hnd'
    rw [List.map_cons, List.flatten_cons, List.filter_append]
    rcases List.mem_cons.1 he with heq | het
    · subst heq
      have hself : (e.2.map (g e.1)).filter (fun p => p.name == e.1) = e.2.map (g e.1) := by
        rw [List.filter_eq_self]
        intro p hp
        rcases List.mem_map.1 hp with ⟨x, _, rfl⟩
        simp [hg]
      have hrest : ((t.map (fun nf => nf.2.map (g nf.1))).flatten.filter
          (fun p => p.name == e.1)) = [] := by
        rw [List.filter_eq_nil_iff]
        intro p hp
        have := name_mem_of_mem_built g hg t p hp
        simp only [beq_iff_eq]
        intro hcontra
        exact hnd'.1 (hcontra ▸ this)
      rw [hself, hrest, List.append_nil]
    · have hne : a.1 ≠ e.1 := by
        intro hcontra
        exact hnd'.1 (hcontra ▸ List.mem_map.2 ⟨e, het, rfl⟩)
      have hhead : (a.2.map (g a.1)).filter (fun p => p.name == e.1) = [] := by
        rw [List.filter_eq_nil_iff]
        intro p hp
        rcases List.mem_map.1 hp with ⟨x, _, rfl⟩
        simp only [hg, beq_iff_eq]
        exact hne
      rw [hhead, List.nil_append]
      exact ih hnd'.2 e het

/-! ### Concrete requests used in closed instances -/

/-- A request skeleton: given method, Content-Type and the wire-decoder
oracle; body text itself is irrelevant once the oracle is fixed. -/
def mkReq (m ct : String) (d : Int → Except String MultipartForm) : Request :=
  { method := m, header := [("Content-Type", ct)], contentLength := -1,
    body := "a=1&a=2", formParse := d }

/-- A parsed form with no fields and no files (a multipart body that is
just the closing boundary). -/
def emptyForm : MultipartForm := { value := [], file := [], removeAllErr := none }

/-- Decoded form for the body `a=1&a=2`. -/
def formA12 : MultipartForm :=
  { value := [("a", ["1", "2"])], file := [], removeAllErr := none }

/-- The C1 scenario: POST, urlencoded content type, body `a=1&a=2`; the
oracle tells what a form decoder would yield from that body. -/
def reqUrlencoded : Request :=
  mkReq "POST" "application/x-www-form-urlencoded" (fun _ => Except.ok formA12)

/-! ### Claims -/

/-- C1: the spec claims a POST with Content-Type
`application/x-www-form-urlencoded` and body `a=1&a=2` converts into two
text parts.  The code instead fails: the request is eligible, but
`ParseMultipartForm` only accepts the `multipart/form-data` media type, so
`ServeHTTP` returns HTTP 400 with `ErrNotMultipart` and the next handler
is never invoked — regardless of what the form decoder would have
produced. -/
theorem urlencoded_post_rejected :
    eligible reqUrlencoded = true ∧
    Handler.ServeHTTP { MemoryLimit := defaultMemLimit } reqUrlencoded =
      Outcome.error 400 errNotMultipart :=
  ⟨by decide, rfl⟩

/-- A decode oracle that records the `maxMemory` bound it was handed, so
the bound used at request time is observable in the outcome. -/
def reqLimitProbe : Request :=
  mkReq "POST" "multipart/form-data; boundary=b"
    (fun lim => Except.error ("maxMemory=" ++ toString lim))

/-- C2: the claim says a non-positive configured MemoryLimit is replaced
by the 2 MiB default at setup time.  `Provision` is declared on a value
receiver, so the assignment lands on a discarded copy: the caller-visible
handler still has MemoryLimit 0 after provisioning, and at request time
the form decoder is invoked with maxMemory 0, not 2097152.  (The copy's
final state shows the intended assignment.) -/
theorem provision_default_never_applied :
    (Handler.afterProvision { MemoryLimit := 0 }).MemoryLimit = 0 ∧
    (Handler.provisionReceiverFinal { MemoryLimit := 0 }).MemoryLimit = defaultMemLimit ∧
    defaultMemLimit = 2097152 ∧
    (Handler.afterProvision { MemoryLimit := 0 }).ServeHTTP reqLimitProbe =
      Outcome.error 400 "maxMemory=0" :=
  ⟨rfl, rfl, rfl, rfl⟩

/-- C3: for every request that is not (POST with a form content-type
prefix — parameters after `;` are irrelevant to the prefix test), the
handler invokes the next handler with the request unchanged: same method,
headers, body, and no error. -/
theorem passthrough_unless_eligible (h : Handler) (r : Request)
    (hne : ¬ (r.method = "POST" ∧
      (strHasPre (headerGet r.header "Content-Type") "application/x-www-form-urlencoded" = true ∨
        strHasPre (headerGet r.header "Content-Type") "multipart/form-data" = true))) :
    h.ServeHTTP r = Outcome.next r := by
  apply serveHTTP_of_not_eligible
  unfold eligible
  cases hm : (r.method == "POST") with
  | false => simp
  | true =>
    have hm' : r.method = "POST" := by simpa using hm
    cases hA : strHasPre (headerGet r.header "Content-Type")
        "application/x-www-form-urlencoded" with
    | true => exact absurd ⟨hm', Or.inl hA⟩ hne
    | false =>
      cases hB : strHasPre (headerGet r.header "Content-Type") "multipart/form-data" with
      | true => exact absurd ⟨hm', Or.inr hB⟩ hne
      | false => simp

/-- A GET request and a POST with a JSON body, neither eligible. -/
def reqGet : Request :=
  mkReq "GET" "application/x-www-form-urlencoded" (fun _ => Except.ok emptyForm)

def reqPostJson : Request :=
  mkReq "POST" "application/json" (fun _ => Except.ok emptyForm)

theorem passthrough_unless_eligible_witness :
    Handler.ServeHTTP { MemoryLimit := defaultMemLimit } reqGet = Outcome.next reqGet ∧
    Handler.ServeHTTP { MemoryLimit := defaultMemLimit } reqPostJson =
      Outcome.next reqPostJson :=
  ⟨passthrough_unless_eligible _ _ (by decide),
   passthrough_unless_eligible _ _ (by decide)⟩

/-- C4: for every eligible request whose form body fails to parse, the
handler returns HTTP 400 carrying the parse error as cause, and the next
handler is never invoked. -/
theorem parse_failure_yields_400 (h : Handler) (r : Request) (e : String)
    (he : eligible r = true)
    (hp : parseMultipartForm (headerGet r.header "Content-Type") r.formParse h.MemoryLimit
      = Except.error e) :
    h.ServeHTTP r = Outcome.error 400 e ∧ ∀ r', h.ServeHTTP r ≠ Outcome.next r' := by
  rw [serveHTTP_of_eligible h r he]
  unfold convertStep
  rw [hp]
  exact ⟨rfl, fun r' hc => by cases hc⟩

/-- A multipart POST whose body has a corrupted boundary declaration: the
wire decoder fails. -/
def reqBadBoundary : Request :=
  mkReq "POST" "multipart/form-data; boundary=b"
    (fun _ => Except.error "multipart: NextPart: EOF")

theorem parse_failure_yields_400_witness :
    Handler.ServeHTTP { MemoryLimit := defaultMemLimit } reqBadBoundary =
      Outcome.error 400 "multipart: NextPart: EOF" :=
  (parse_failure_yields_400 { MemoryLimit := defaultMemLimit } reqBadBoundary
    "multipart: NextPart: EOF" (by decide) rfl).1

/-- C5: for every successful conversion (with the parsed maps keyed
uniquely, as Go maps are), the converted list is all text parts — one per
value, produced from the name→values mapping — followed by all file parts
from the name→files mapping; and within one field name the values (and
the files) keep their original submission order. -/
theorem converted_parts_ordering (form : MultipartForm) (ps : List part)
    (hc : convert form = Except.ok ps)
    (hvk : (form.value.map Prod.fst).Nodup)
    (hfk : (form.file.map Prod.fst).Nodup) :
    ∃ fps, encodeFileMap form.file = Except.ok fps ∧
      ps = textParts form.value ++ fps ∧
      (∀ p ∈ textParts form.value, p.type = "field/text") ∧
      (∀ p ∈ fps, p.type = "file/base64") ∧
      (∀ nv ∈ form.value,
        ((textParts form.value).filter (fun p => p.name == nv.1)).map part.value = nv.2) ∧
      (∀ nf ∈ form.file,
        fps.filter (fun p => p.name == nf.1) = nf.2.map (mkFilePart nf.1)) := by
  unfold convert at hc
  cases hm : encodeFileMap form.file with
  | error e => rw [hm] at hc; cases hc
  | ok fps =>
    rw [hm] at hc
    simp only [Except.ok.injEq] at hc
    refine ⟨fps, rfl, hc.symm, ?_, ?_, ?_, ?_⟩
    · intro p hp
      rcases List.mem_flatten.1 hp with ⟨s, hs, hps⟩
      rcases List.mem_map.1 hs with ⟨nv, _, rfl⟩
      rcases List.mem_map.1 hps with ⟨v, _, rfl⟩
      rfl
    · rw [encodeFileMap_ok form.file fps hm]
      intro p hp
      rcases List.mem_flatten.1 hp with ⟨s, hs, hps⟩
      rcases List.mem_map.1 hs with ⟨nf, _, rfl⟩
      rcases List.mem_map.1 hps with ⟨f, _, rfl⟩
      rfl
    · intro nv hnv
      unfold textParts
      rw [filter_built_of_nodup mkTextPart (fun _ _ => rfl) form.value hvk nv hnv,
        List.map_map]
      have hcomp : part.value ∘ mkTextPart nv.1 = id := rfl
      rw [hcomp, List.map_id]
    · intro nf hnf
      rw [encodeFileMap_ok form.file fps hm]
      exact filter_built_of_nodup mkFilePart (fun _ _ => rfl) form.file hfk nf hnf

/-- One uploaded file with content bytes of the text `Hi`. -/
def fileW5 : FileHeader :=
  { filename := "a.png", contentType := "image/png", content := [72, 105], readErr := none }

/-- A parsed form with two names of text fields (one repeated) and one
file. -/
def formW5 : MultipartForm :=
  { value := [("a", ["1", "2"]), ("b", ["3"])],
    file := [("f", [fileW5])],
    removeAllErr := none }

theorem converted_parts_ordering_witness :
    ∃ fps, encodeFileMap formW5.file = Except.ok fps ∧
      (mkTextPart "a" "1" :: mkTextPart "a" "2" :: mkTextPart "b" "3" ::
        mkFilePart "f" fileW5 :: []) =
        textParts formW5.value ++ fps ∧
      (∀ p ∈ textParts formW5.value, p.type = "field/text") ∧
      (∀ p ∈ fps, p.type = "file/base64") ∧
      (∀ nv ∈ formW5.value,
        ((textParts formW5.value).filter (fun p => p.name == nv.1)).map part.value = nv.2) ∧
      (∀ nf ∈ formW5.file,
        fps.filter (fun p => p.name == nf.1) = nf.2.map (mkFilePart nf.1)) :=
  converted_parts_ordering formW5 _ rfl (by decide) (by decide)

/-- C6: for every per-name file list that encodes successfully (file bytes
being bytes, i.e. below 256), there is exactly one part per file, in
order; each has kind `file/base64`, its value draws only on the base64
alphabet plus padding — no line breaks — and base64-decoding each value
gives back exactly the original file bytes. -/
theorem file_parts_base64_round_trip (name : String) (files : List FileHeader)
    (ps : List part) (h : encodeFiles name files = Except.ok ps)
    (hb : ∀ f ∈ files, ∀ b ∈ f.content, b < 256) :
    ps.length = files.length ∧
    (∀ p ∈ ps, p.type = "file/base64" ∧
      (∀ c ∈ p.value.data, (c ∈ b64Chars ∨ c = '=') ∧ c ≠ '\n' ∧ c ≠ '\r')) ∧
    ps.map (fun p => base64Decode p.value.data) = files.map FileHeader.content ∧
    ps.map part.file_name = files.map FileHeader.filename ∧
    ps.map part.content_type = files.map FileHeader.contentType := by
  have hps := encodeFiles_ok name files ps h
  subst hps
  refine ⟨by simp, ?_, ?_, ?_, ?_⟩
  · intro p hp
    rcases List.mem_map.1 hp with ⟨f, hf, rfl⟩
    refine ⟨rfl, ?_⟩
    intro c hc
    have hc' : c ∈ base64Encode f.content := hc
    have hmem := base64Encode_mem f.content c hc'
    refine ⟨hmem, ?_, ?_⟩
    · rcases hmem with hm | heq
      · exact (mem_b64Chars_not_newline c hm).1
      · rw [heq]; decide
    · rcases hmem with hm | heq
      · exact (mem_b64Chars_not_newline c hm).2
      · rw [heq]; decide
  · rw [List.map_map]
    apply List.map_congr_left
    intro f hf
    exact base64_round_trip f.content (hb f hf)
  · rw [List.map_map]; rfl
  · rw [List.map_map]; rfl

/-- Two file uploads with known contents. -/
def filesW6 : List FileHeader :=
  [{ filename := "a.png", contentType := "image/png", content := [72, 105], readErr := none },
   { filename := "b.bin", contentType := "application/octet-stream",
     content := [0, 255, 10, 13, 1], readErr := none }]

theorem file_parts_base64_round_trip_witness :
    (filesW6.map (mkFilePart "upload")).length = filesW6.length ∧
    (∀ p ∈ filesW6.map (mkFilePart "upload"), p.type = "file/base64" ∧
      (∀ c ∈ p.value.data, (c ∈ b64Chars ∨ c = '=') ∧ c ≠ '\n' ∧ c ≠ '\r')) ∧
    (filesW6.map (mkFilePart "upload")).map (fun p => base64Decode p.value.data) =
      filesW6.map FileHeader.content ∧
    (filesW6.map (mkFilePart "upload")).map part.file_name =
      filesW6.map FileHeader.filename ∧
    (filesW6.map (mkFilePart "upload")).map part.content_type =
      filesW6.map FileHeader.contentType :=
  file_parts_base64_round_trip "upload" filesW6 (filesW6.map (mkFilePart "upload"))
    rfl (by decide)

/-- C7: on every successful conversion the forwarded request carries
Content-Type `application/json`, the marker header Content-Type-Class
`caddy_post_json_v1`, and both the Content-Length header and the
structural contentLength field equal the exact byte length of the new
JSON body. -/
theorem success_sets_json_headers (h : Handler) (r r' : Request)
    (he : eligible r = true) (hn : h.ServeHTTP r = Outcome.next r') :
    headerGet r'.header "Content-Type" = "application/json" ∧
    headerGet r'.header "Content-Type-Class" = "caddy_post_json_v1" ∧
    headerGet r'.header "Content-Length" = toString r'.body.utf8ByteSize ∧
    r'.contentLength = Int.ofNat r'.body.utf8ByteSize := by
  rw [serveHTTP_of_eligible h r he] at hn
  unfold convertStep at hn
  split at hn
  · cases hn
  · split at hn
    · cases hn
    · split at hn
      · cases hn
      · injection hn with hr'
        subst hr'
        refine ⟨?_, ?_, ?_, ?_⟩
        · rw [headerGet_set_ne _ _ _ _ (by decide), headerGet_set_ne _ _ _ _ (by decide),
            headerGet_set_self]
        · rw [headerGet_set_ne _ _ _ _ (by decide), headerGet_set_self]
        · rw [headerGet_set_self]
        · rfl

/-- An eligible multipart POST whose parsed form is one text field. -/
def reqOk : Request :=
  mkReq "POST" "multipart/form-data; boundary=b"
    (fun _ => Except.ok { value := [("a", ["1"])], file := [], removeAllErr := none })

/-- The request `ServeHTTP` hands to the next handler for `reqOk`. -/
def reqOkOut : Request := { reqOk with
  body := encodeBody [mkTextPart "a" "1"],
  header := headerSet (headerSet (headerSet reqOk.header "Content-Type" "application/json")
    "Content-Type-Class" "caddy_post_json_v1")
    "Content-Length" (toString (encodeBody [mkTextPart "a" "1"]).utf8ByteSize),
  contentLength := Int.ofNat (encodeBody [mkTextPart "a" "1"]).utf8ByteSize }

theorem success_sets_json_headers_witness :
    headerGet reqOkOut.header "Content-Type" = "application/json" ∧
    headerGet reqOkOut.header "Content-Type-Class" = "caddy_post_json_v1" ∧
    headerGet reqOkOut.header "Content-Length" = toString reqOkOut.body.utf8ByteSize ∧
    reqOkOut.contentLength = Int.ofNat reqOkOut.body.utf8ByteSize :=
  success_sets_json_headers { MemoryLimit := defaultMemLimit } reqOk reqOkOut
    (by decide) rfl

/-- An eligible multipart POST whose parsed form is empty: no fields, no
files (body is just a closing boundary). -/
def reqEmptyForm : Request :=
  mkReq "POST" "multipart/form-data; boundary=b" (fun _ => Except.ok emptyForm)

/-- The request `ServeHTTP` hands to the next handler for `reqEmptyForm`. -/
def reqEmptyFormOut : Request := { reqEmptyForm with
  body := encodeBody [],
  header := headerSet (headerSet (headerSet reqEmptyForm.header
    "Content-Type" "application/json")
    "Content-Type-Class" "caddy_post_json_v1")
    "Content-Length" (toString (encodeBody ([] : List part)).utf8ByteSize),
  contentLength := Int.ofNat (encodeBody ([] : List part)).utf8ByteSize }

/-- C8 counterexample: an eligible multipart form with zero fields and
zero files converts successfully, but the new body is the five bytes
`null` plus newline — the JSON null literal, not a JSON array (it does not
even start with a bracket). -/
theorem empty_form_body_is_null :
    Handler.ServeHTTP { MemoryLimit := defaultMemLimit } reqEmptyForm =
      Outcome.next reqEmptyFormOut ∧
    reqEmptyFormOut.body = "null\n" ∧
    strHasPre "null\n" "[" = false :=
  ⟨rfl, by decide, by decide⟩

/-- C8 (amended): on every successful conversion the new body is the
`encoding/json` serialization of the converted part list — a JSON array
of part objects (never an object keyed by name) whenever at least one
part was produced, and the JSON literal `null` when the form had no
fields and no files. -/
theorem success_body_is_parts_json (h : Handler) (r r' : Request)
    (he : eligible r = true) (hn : h.ServeHTTP r = Outcome.next r') :
    ∃ qs : List part, r'.body = encodeBody qs ∧
      (qs ≠ [] → r'.body.data.head? = some '[' ∧
        r'.body = "[" ++ String.intercalate "," (qs.map partJSON) ++ "]" ++ "\n") ∧
      (qs = [] → r'.body = "null" ++ "\n") := by
  rw [serveHTTP_of_eligible h r he] at hn
  unfold convertStep at hn
  split at hn
  · cases hn
  · rename_i form heqf
    split at hn
    · cases hn
    · rename_i converted heqc
      split at hn
      · cases hn
      · injection hn with hr'
        subst hr'
        refine ⟨converted, rfl, ?_, ?_⟩
        · intro hne
          have hie : converted.isEmpty = false := by
            cases converted with
            | nil => exact absurd rfl hne
            | cons a t => rfl
          constructor
          · show (encodeBody converted).data.head? = some '['
            unfold encodeBody partsJSON
            rw [hie]
            simp [String.data_append]
          · show encodeBody converted =
              "[" ++ String.intercalate "," (converted.map partJSON) ++ "]" ++ "\n"
            unfold encodeBody partsJSON
            rw [hie]
            simp
        · intro hnil
          subst hnil
          rfl

theorem success_body_is_parts_json_witness :
    ∃ qs : List part, reqEmptyFormOut.body = encodeBody qs ∧
      (qs ≠ [] → reqEmptyFormOut.body.data.head? = some '[' ∧
        reqEmptyFormOut.body =
          "[" ++ String.intercalate "," (qs.map partJSON) ++ "]" ++ "\n") ∧
      (qs = [] → reqEmptyFormOut.body = "null" ++ "\n") :=
  success_body_is_parts_json { MemoryLimit := defaultMemLimit } reqEmptyForm
    reqEmptyFormOut (by decide) rfl

/-- C9: for every eligible request that parses, a failure while reading or
encoding an uploaded file yields HTTP 500 with that cause, and a failure
of RemoveAll (releasing the parser's temporary files) yields HTTP 500 with
that cause; in both cases the next handler is never invoked, so no
partially built output is spliced into the request. -/
theorem conversion_failures_yield_500 (h : Handler) (r : Request)
    (form : MultipartForm) (e : String)
    (he : eligible r = true)
    (hp : parseMultipartForm (headerGet r.header "Content-Type") r.formParse h.MemoryLimit
      = Except.ok form) :
    (encodeFileMap form.file = Except.error e →
      h.ServeHTTP r = Outcome.error 500 e ∧ ∀ r', h.ServeHTTP r ≠ Outcome.next r') ∧
    (∀ fps, encodeFileMap form.file = Except.ok fps → form.removeAllErr = some e →
      h.ServeHTTP r = Outcome.error 500 e ∧ ∀ r', h.ServeHTTP r ≠ Outcome.next r') := by
  rw [serveHTTP_of_eligible h r he]
  unfold convertStep
  simp only [hp]
  constructor
  · intro hfm
    have hcv : convert form = Except.error e := by unfold convert; rw [hfm]
    simp only [hcv]
    exact ⟨trivial, fun r' hc => by cases hc⟩
  · intro fps hfm hra
    have hcv : convert form = Except.ok (textParts form.value ++ fps) := by
      unfold convert; rw [hfm]
    simp only [hcv, hra]
    exact ⟨trivial, fun r' hc => by cases hc⟩

/-- A parsed form whose only file fails to open. -/
def fileFailForm : MultipartForm :=
  { value := [],
    file := [("f", [{ filename := "x.bin", contentType := "application/octet-stream",
                      content := [], readErr := some "open x.bin: permission denied" }])],
    removeAllErr := none }

def reqFileFail : Request :=
  mkReq "POST" "multipart/form-data; boundary=b" (fun _ => Except.ok fileFailForm)

/-- A parsed form whose RemoveAll fails. -/
def rmFailForm : MultipartForm :=
  { value := [("a", ["1"])], file := [], removeAllErr := some "remove temp: file busy" }

def reqRmFail : Request :=
  mkReq "POST" "multipart/form-data; boundary=b" (fun _ => Except.ok rmFailForm)

theorem conversion_failures_yield_500_witness :
    Handler.ServeHTTP { MemoryLimit := defaultMemLimit } reqFileFail =
      Outcome.error 500 "open x.bin: permission denied" ∧
    Handler.ServeHTTP { MemoryLimit := defaultMemLimit } reqRmFail =
      Outcome.error 500 "remove temp: file busy" :=
  ⟨((conversion_failures_yield_500 { MemoryLimit := defaultMemLimit } reqFileFail
      fileFailForm "open x.bin: permission denied" (by decide) rfl).1 rfl).1,
   ((conversion_failures_yield_500 { MemoryLimit := defaultMemLimit } reqRmFail
      rmFailForm "remove temp: file busy" (by decide) rfl).2 [] rfl rfl).1⟩

/-- Membership in the serialized member list of a `part`: the key appears
with some value exactly when the corresponding struct field is non-empty
(this is `omitempty` on every field). -/
theorem mem_partMembers (p : part) (k v : String) :
    (k, v) ∈ partMembers p ↔
      v ≠ "" ∧ ((k = "name" ∧ v = p.name) ∨ (k = "type" ∧ v = p.type) ∨
        (k = "value" ∧ v = p.value) ∨ (k = "content_type" ∧ v = p.content_type) ∨
        (k = "file_name" ∧ v = p.file_name)) := by
  unfold partMembers
  rw [List.mem_filter]
  simp only [List.mem_cons, List.not_mem_nil, or_false, Prod.mk.injEq,
    Bool.not_eq_true', beq_eq_false_iff_ne, ne_eq]
  tauto

/-- C10: every field of the `part` record is serialized under `omitempty`:
a member appears in the output object exactly when its value is non-empty,
so a text field submitted with an empty value yields a part object with no
`value` member — indistinguishable from an absent value.  The two closed
instances show the serialized objects for an empty-valued text part and
for a full file part. -/
theorem omitempty_member_iff (p : part) :
    ((∃ v, ("name", v) ∈ partMembers p) ↔ p.name ≠ "") ∧
    ((∃ v, ("type", v) ∈ partMembers p) ↔ p.type ≠ "") ∧
    ((∃ v, ("value", v) ∈ partMembers p) ↔ p.value ≠ "") ∧
    ((∃ v, ("content_type", v) ∈ partMembers p) ↔ p.content_type ≠ "") ∧
    ((∃ v, ("file_name", v) ∈ partMembers p) ↔ p.file_name ≠ "") ∧
    partJSON (mkTextPart "a" "") = "\x7b\"name\":\"a\",\"type\":\"field/text\"\x7d" ∧
    partJSON (mkFilePart "avatar"
        { filename := "avatar.png", contentType := "image/png",
          content := [80, 78, 71, 68, 65, 84, 65], readErr := none }) =
      "\x7b\"name\":\"avatar\",\"type\":\"file/base64\",\"value\":\"UE5HREFUQQ==\"," ++
        "\"content_type\":\"image/png\",\"file_name\":\"avatar.png\"\x7d" := by
  refine ⟨?_, ?_, ?_, ?_, ?_, by decide, by decide⟩
  all_goals
    constructor
    · rintro ⟨v, hv⟩
      rcases (mem_partMembers p _ v).1 hv with ⟨hne, hcase⟩
      rcases hcase with ⟨hk, hv'⟩ | ⟨hk, hv'⟩ | ⟨hk, hv'⟩ | ⟨hk, hv'⟩ | ⟨hk, hv'⟩ <;>
        first
          | (subst hv'; exact hne)
          | (exact absurd hk (by decide))
    · intro hne
      exact ⟨_, (mem_partMembers p _ _).2 ⟨hne, by tauto⟩⟩
